import Mathlib

/-!
# Verification of the carbonMap timeline-analytics core

A shallow embedding of the analytics core of `src/App.jsx` (UMEPLab/carbonMap):
path normalization, leg extraction, distance/emission annotation, the temporal
position resolver, the cumulative-emission aggregation, the carbon-credit
leaderboard and the reasoning-log builder.

Modeling conventions:
* JavaScript numbers are modeled as exact rationals `ℚ`.  `NaN` is a separate
  `JSVal` constructor; it never occurs in JSON-derived data and only arises
  from arithmetic on non-numeric operands.
* JSON-derived scalar fields are modeled by `JSVal` (number, string, boolean,
  null) together with `undef` for absent fields, so that the source's
  `??`-chains and `typeof x === 'number'` guards keep their exact semantics.
* The great-circle distance `haversineKm` computes with transcendental
  functions on IEEE doubles; it is taken as a parameter
  `hav : CleanedPoint → CleanedPoint → ℚ` throughout, since no verified
  property depends on its values.
-/

namespace CarbonMap

/-- A JavaScript scalar value.  JSON-derived data never contains `undef` or
`nan`: `undef` arises from missing fields, `nan` only from arithmetic on
non-numeric operands. -/
inductive JSVal where
  | num (q : ℚ)
  | str (s : String)
  | boolv (b : Bool)
  | nul
  | undef
  | nan
  deriving DecidableEq, Repr

/-- `v == null` (loose equality): true exactly for `null` and `undefined`. -/
def JSVal.isNullish : JSVal → Bool
  | .nul => true
  | .undef => true
  | _ => false

/-- JS nullish coalescing `a ?? b`. -/
def jsCoalesce (a b : JSVal) : JSVal :=
  if a.isNullish then b else a

/-- `typeof v === 'number' ? v : <fail>`.  (`typeof NaN` is also `'number'` in
JS, but `nan` cannot occur in the JSON-derived fields this guard is applied
to, so that case is unreachable in the modeled code paths.) -/
def JSVal.typeofNumber? : JSVal → Option ℚ
  | .num q => some q
  | _ => none

/-- JS `Number(v)` coercion as used implicitly by comparison and arithmetic
operators; `none` denotes NaN.  Parsing of numeric strings is not modeled
(no modeled code path feeds string operands into arithmetic). -/
def JSVal.toNumber : JSVal → Option ℚ
  | .num q => some q
  | .nul => some 0
  | .boolv b => some (if b then 1 else 0)
  | _ => none

/-- Re-embed a number-or-undefined field into a `JSVal`. -/
def optNum : Option ℚ → JSVal
  | some q => .num q
  | none => JSVal.undef

/-- `typeof v === 'number'` as a boolean. -/
def JSVal.isNumber : JSVal → Bool
  | .num _ => true
  | _ => false

/-- JS `+` under numeric coercion.  (A string operand would concatenate in JS;
no modeled code path applies `+` to a string, and such operands are rendered
`nan` here.) -/
def jsAdd (a b : JSVal) : JSVal :=
  match a.toNumber, b.toNumber with
  | some x, some y => .num (x + y)
  | _, _ => .nan

/-- JS `-` under numeric coercion. -/
def jsSub (a b : JSVal) : JSVal :=
  match a.toNumber, b.toNumber with
  | some x, some y => .num (x - y)
  | _, _ => .nan

/-- JS `*` under numeric coercion. -/
def jsMul (a b : JSVal) : JSVal :=
  match a.toNumber, b.toNumber with
  | some x, some y => .num (x * y)
  | _, _ => .nan

/-- JS `v > q` for a number `q`: `Number` coercion on `v`, false on NaN. -/
def jsGtNum (v : JSVal) (q : ℚ) : Bool :=
  match v.toNumber with
  | some x => decide (q < x)
  | none => false

/-- JS `q < v` for a number `q`: `Number` coercion on `v`, false on NaN. -/
def jsLtNum (q : ℚ) (v : JSVal) : Bool :=
  match v.toNumber with
  | some x => decide (q < x)
  | none => false

/-- JS `t <= x` where `x` is number-or-undefined (comparison with `undefined`
is false). -/
def jsLeOpt (t : ℚ) : Option ℚ → Bool
  | some x => decide (t ≤ x)
  | none => false

/-- JS `t >= x` where `x` is number-or-undefined (comparison with `undefined`
is false). -/
def jsGeOpt (t : ℚ) : Option ℚ → Bool
  | some x => decide (x ≤ t)
  | none => false

/-- JS object property lookup coerces the key to a string: `obj[undefined]`
reads the key `"undefined"`. -/
def jsKey : Option String → String
  | some s => s
  | none => "undefined"

/-! ## Raw input data (scenario JSON) -/

/-- One raw path point, as `normalizePathWithTime` receives it:
a 2/3-element tuple `[lng, lat, t?]`, an object with aliased field names,
a falsy value (`null`/`undefined`/`0`/`''`/`false`, caught by
`if (!point) return null`), or some other truthy non-object primitive
(which falls through to the final `return null`). -/
inductive RawPoint where
  | falsy
  | tuple (es : List JSVal)
  | obj (lng lon longitude x lat latitude y t time timestamp : JSVal)
  | prim
  deriving DecidableEq, Repr

/-- The `.t` property of a raw point (as read by `leg.path?.[0]?.t`):
only the object form has one; array/falsy/primitive give `undefined`. -/
def RawPoint.tProp : RawPoint → JSVal
  | .obj _ _ _ _ _ _ _ t _ _ => t
  | _ => JSVal.undef

/-- Free-text rationale material: a string, an array of chunks, an object with
a `text` field, or anything else (`nothing`). -/
inductive RVal where
  | str (s : String)
  | arr (chunks : List JSVal)
  | obj (text : JSVal)
  | nothing
  deriving DecidableEq, Repr

/-- A raw leg record.  Scalar fields are `JSVal` (with `undef` for absent
keys); `path` is `none` when absent or not an array. -/
structure RawLeg where
  start_time : JSVal := .undef
  startTime : JSVal := .undef
  end_time : JSVal := .undef
  endTime : JSVal := .undef
  mode : Option String := none
  path : Option (List RawPoint) := none
  duration_s : JSVal := .undef
  duration : JSVal := .undef
  distance_m : JSVal := .undef
  distance : JSVal := .undef
  distance_km : JSVal := .undef
  reasoning : RVal := .nothing
  rationale : RVal := .nothing
  deriving DecidableEq, Repr

/-- A raw timeline event. -/
structure RawEvent where
  type : JSVal := .undef
  start_time : JSVal := .undef
  startTime : JSVal := .undef
  end_time : JSVal := .undef
  endTime : JSVal := .undef
  mode : Option String := none
  duration_s : JSVal := .undef
  duration : JSVal := .undef
  distance_m : JSVal := .undef
  distance : JSVal := .undef
  reasoning : RVal := .nothing
  rationale : RVal := .nothing
  path : Option (List RawPoint) := none
  deriving DecidableEq, Repr

/-- A raw agent.  `legs`/`timeline` are `none` when absent or not arrays;
timeline entries may be nullish (`none`). -/
structure RawAgent where
  id : Option String := none
  mode : Option String := none
  legs : Option (List RawLeg) := none
  timeline : Option (List (Option RawEvent)) := none
  reasoning : RVal := .nothing
  rationale : RVal := .nothing
  deriving DecidableEq, Repr

/-! ## Path Normalizer (`normalizePathWithTime`, App.jsx 982–1017) -/

/-- A cleaned path point.  The tuple form keeps its first two entries verbatim
(no numeric check in the source), so `lng`/`lat` stay `JSVal`; `t` is
number-or-undefined (`typeof t === 'number' ? t : undefined`). -/
structure CleanedPoint where
  lng : JSVal
  lat : JSVal
  t : Option ℚ
  deriving DecidableEq, Repr

/-- The `.map` body of `normalizePathWithTime`: tuple destructuring keeps
`lng`/`lat` unchecked; the object form resolves aliases through `??`-chains
and drops the point unless both coordinates are numbers. -/
def cleanPoint : RawPoint → Option CleanedPoint
  | .falsy => none
  | .prim => none
  | .tuple es =>
      some { lng := es.getD 0 .undef, lat := es.getD 1 .undef,
             t := (es.getD 2 .undef).typeofNumber? }
  | .obj lng lon longitude x lat latitude y t time timestamp =>
      let l := jsCoalesce lng (jsCoalesce lon (jsCoalesce longitude x))
      let a := jsCoalesce lat (jsCoalesce latitude y)
      let tv := jsCoalesce t (jsCoalesce time timestamp)
      match l.typeofNumber?, a.typeofNumber? with
      | some lq, some aq => some { lng := .num lq, lat := .num aq, t := tv.typeofNumber? }
      | _, _ => none

/-- `cleaned.length - 1 || 1`. -/
def synthSteps (n : ℕ) : ℚ :=
  if n - 1 = 0 then 1 else ((n - 1 : ℕ) : ℚ)

/-- `cleaned.map((p, idx) => ({ ...p, t: startTime + (duration * idx) / steps }))`. -/
def synthTimes (startT dur steps : ℚ) : ℕ → List CleanedPoint → List CleanedPoint
  | _, [] => []
  | i, p :: r =>
      { p with t := some (startT + dur * (i : ℚ) / steps) } :: synthTimes startT dur steps (i + 1) r

/-- `normalizePathWithTime(path, startTime, endTime)` (App.jsx 982–1017).
`path = none` models a null/non-array input. -/
def normalizePathWithTime (path : Option (List RawPoint)) (startTime endTime : JSVal) :
    List CleanedPoint :=
  match path with
  | none => []
  | some pts =>
    let cleaned := pts.filterMap cleanPoint
    if cleaned.isEmpty then []
    else if cleaned.all (fun p => p.t.isSome) then cleaned
    else
      match startTime.typeofNumber?, endTime.typeofNumber? with
      | some s, some e =>
          if e ≤ s then cleaned.map (fun p => { p with t := some s })
          else synthTimes s (e - s) (synthSteps cleaned.length) 0 cleaned
      | some s, none => cleaned.map (fun p => { p with t := some s })
      | none, _ => cleaned.map (fun p => { p with t := some 0 })

/-! ## Leg Extractor (`extractLegs`, App.jsx 1019–1043) -/

/-- The canonical leg shape produced by `extractLegs`: the spread of the raw
record with `mode` resolved and `path` normalized. -/
structure PostLeg where
  start_time : JSVal
  startTime : JSVal
  end_time : JSVal
  endTime : JSVal
  mode : Option String
  path : List CleanedPoint
  duration_s : JSVal
  duration : JSVal
  distance_m : JSVal
  distance : JSVal
  distance_km : JSVal
  reasoning : RVal
  rationale : RVal
  deriving DecidableEq, Repr

/-- `leg.path?.[0]?.t`. -/
def rawLegPathFirstT (leg : RawLeg) : JSVal :=
  match leg.path with
  | none => .undef
  | some pts => (pts.head?.map RawPoint.tProp).getD JSVal.undef

/-- `leg.path?.[leg.path.length - 1]?.t`. -/
def rawLegPathLastT (leg : RawLeg) : JSVal :=
  match leg.path with
  | none => .undef
  | some pts => (pts.getLast?.map RawPoint.tProp).getD JSVal.undef

/-- The `legs.map` body of `extractLegs` (App.jsx 1023–1028). -/
def extractLegFromRaw (agentMode : Option String) (leg : RawLeg) : PostLeg :=
  let start := jsCoalesce leg.start_time (jsCoalesce leg.startTime (rawLegPathFirstT leg))
  let stop := jsCoalesce leg.end_time (jsCoalesce leg.endTime (rawLegPathLastT leg))
  { start_time := leg.start_time, startTime := leg.startTime,
    end_time := leg.end_time, endTime := leg.endTime,
    mode := leg.mode.orElse (fun _ => agentMode),
    path := normalizePathWithTime (some (leg.path.getD [])) start stop,
    duration_s := leg.duration_s, duration := leg.duration,
    distance_m := leg.distance_m, distance := leg.distance,
    distance_km := leg.distance_km,
    reasoning := leg.reasoning, rationale := leg.rationale }

/-- The timeline-branch `.map` body of `extractLegs` (App.jsx 1033–1042). -/
def extractLegFromMove (agentMode : Option String) (m : RawEvent) : PostLeg :=
  let s := jsCoalesce m.start_time (jsCoalesce m.startTime (.num 0))
  let e := jsCoalesce m.end_time (jsCoalesce m.endTime (.num 0))
  { start_time := s, startTime := .undef,
    end_time := e, endTime := .undef,
    mode := m.mode.orElse (fun _ => agentMode),
    path := normalizePathWithTime (some (m.path.getD [])) s e,
    duration_s := jsCoalesce m.duration_s (jsCoalesce m.duration (.num 0)),
    duration := .undef,
    distance_m := jsCoalesce m.distance_m (jsCoalesce m.distance .nul),
    distance := .undef, distance_km := .undef,
    reasoning := m.reasoning, rationale := m.rationale }

/-- `entry?.type === 'move'`. -/
def isMoveEntry : Option RawEvent → Bool
  | some e => e.type == JSVal.str "move"
  | none => false

/-- `extractLegs(agent)` (App.jsx 1019–1043). -/
def extractLegs (a : RawAgent) : List PostLeg :=
  let legs := a.legs.getD []
  if legs.isEmpty then
    match a.timeline with
    | none => []
    | some tl => ((tl.filter isMoveEntry).filterMap id).map (extractLegFromMove a.mode)
  else legs.map (extractLegFromRaw a.mode)

/-! ## Distance & Emission annotation (`precomputed`, App.jsx 1343–1362) -/

/-- The sum of `hav` over consecutive path points
(`computeLegDistanceKm`, App.jsx 976–980). -/
def computeLegDistanceKm (hav : CleanedPoint → CleanedPoint → ℚ) :
    List CleanedPoint → ℚ
  | p :: q :: rest => hav p q + computeLegDistanceKm hav (q :: rest)
  | _ => 0

/-- An annotated leg: the spread of the extracted leg with `mode` overwritten
by `legMode` and the computed `distance_km`/`emission_g` added (the raw
`distance_km` field is overwritten, so it is dropped here). -/
structure AnnLeg where
  start_time : JSVal
  startTime : JSVal
  end_time : JSVal
  endTime : JSVal
  mode : Option String
  path : List CleanedPoint
  duration_s : JSVal
  duration : JSVal
  distance_m : JSVal
  distance : JSVal
  reasoning : RVal
  rationale : RVal
  distance_km : ℚ
  emission_g : ℚ
  deriving DecidableEq, Repr

/-- The per-leg annotation body of `precomputed` (App.jsx 1345–1359):
`legMode = leg.mode ?? a.mode`; `distance_km` trusts a numeric `distance_m`
(converted to km) and otherwise sums great-circle distances;
`emission_g = distance_km * (ef[legMode] ?? ef[a.mode] ?? 0)`. -/
def annotateLeg (hav : CleanedPoint → CleanedPoint → ℚ) (ef : String → Option ℚ)
    (a : RawAgent) (leg : PostLeg) : AnnLeg :=
  let legMode := leg.mode.orElse (fun _ => a.mode)
  let dkm :=
    match leg.distance_m.typeofNumber? with
    | some d => d / 1000
    | none => computeLegDistanceKm hav leg.path
  { start_time := leg.start_time, startTime := leg.startTime,
    end_time := leg.end_time, endTime := leg.endTime,
    mode := legMode, path := leg.path,
    duration_s := leg.duration_s, duration := leg.duration,
    distance_m := leg.distance_m, distance := leg.distance,
    reasoning := leg.reasoning, rationale := leg.rationale,
    distance_km := dkm,
    emission_g := dkm * ((ef (jsKey legMode)).getD ((ef (jsKey a.mode)).getD 0)) }

/-- An annotated agent (`{ ...a, legs }`). -/
structure AnnAgent where
  id : Option String
  mode : Option String
  legs : List AnnLeg
  reasoning : RVal
  rationale : RVal
  deriving DecidableEq, Repr

/-- One agent of `precomputed.agents`. -/
def annotateAgent (hav : CleanedPoint → CleanedPoint → ℚ) (ef : String → Option ℚ)
    (a : RawAgent) : AnnAgent :=
  { id := a.id, mode := a.mode,
    legs := (extractLegs a).map (annotateLeg hav ef a),
    reasoning := a.reasoning, rationale := a.rationale }

/-- `precomputed.agents`. -/
def annotateAgents (hav : CleanedPoint → CleanedPoint → ℚ) (ef : String → Option ℚ)
    (agents : List RawAgent) : List AnnAgent :=
  agents.map (annotateAgent hav ef)

/-- The default factor table `DEFAULT_EF` (App.jsx 887–890), used when the
scenario supplies no `emission_factors_g_per_km`. -/
def DEFAULT_EF (m : String) : Option ℚ :=
  if m = "car_ice" then some 200
  else if m = "car_ev" then some 100
  else if m = "bus" then some 40
  else if m = "bike" then some 0
  else if m = "walk" then some 0
  else none

/-! ## Aggregation Engine (App.jsx 1364–1396 and 1585–1604) -/

/-- A per-leg completion event `{ t, emission_g }`. -/
structure EmEvent where
  t : JSVal
  emission_g : ℚ
  deriving DecidableEq, Repr

/-- A cumulative curve point `{ t, emission_g_cum }`. -/
structure CumPoint where
  t : JSVal
  emission_g_cum : ℚ
  deriving DecidableEq, Repr

/-- `leg.end_time ?? leg.path?.[leg.path.length - 1]?.t` as used by the
aggregation build and the carbon scorer (App.jsx 1354, 1368, 1613). -/
def aggLegEnd (leg : AnnLeg) : JSVal :=
  jsCoalesce leg.end_time (optNum ((leg.path.getLast?).bind CleanedPoint.t))

/-- The global completion events, in traversal order, keeping legs whose
`tEnd != null` (App.jsx 1365–1371). -/
def globalEvents (ags : List AnnAgent) : List EmEvent :=
  ags.flatMap (fun a => a.legs.filterMap (fun leg =>
    let tEnd := aggLegEnd leg
    if tEnd.isNullish then none else some ⟨tEnd, leg.emission_g⟩))

/-- The per-mode completion events for object key `m` (the pushes into
`byModeTimes[legMode]`, App.jsx 1355–1358, in traversal order). -/
def modeEvents (ags : List AnnAgent) (m : String) : List EmEvent :=
  ags.flatMap (fun a => a.legs.filterMap (fun leg =>
    let tEnd := aggLegEnd leg
    if tEnd.isNullish then none
    else if jsKey leg.mode == m then some ⟨tEnd, leg.emission_g⟩ else none))

/-- Sort key for the JS comparator `(x, y) => x.t - y.t` under `Number`
coercion.  For numeric times this is the time value; a non-numeric time would
make the comparator return NaN, leaving the order engine-defined in JS —
modeled by the fixed key 0 (no verified property depends on the relative
order of such events). -/
def sortKey (v : JSVal) : ℚ := (v.toNumber).getD 0

/-- The (stable, ascending) event order of `timesAll.sort((x, y) => x.t - y.t)`. -/
def evLE (x y : EmEvent) : Bool := decide (sortKey x.t ≤ sortKey y.t)

/-- `let cum = 0; sorted.map((p) => ({ t: p.t, emission_g_cum: (cum += p.emission_g) }))`. -/
def prefixCum (acc : ℚ) : List EmEvent → List CumPoint
  | [] => []
  | e :: r => ⟨e.t, acc + e.emission_g⟩ :: prefixCum (acc + e.emission_g) r

/-- Sort by completion time (stable) and prefix-sum (App.jsx 1372–1374,
1379–1383). -/
def buildCumulative (evs : List EmEvent) : List CumPoint :=
  prefixCum 0 (evs.mergeSort evLE)

/-- `precomputed.cumulative`. -/
def cumulativeCurve (hav : CleanedPoint → CleanedPoint → ℚ) (ef : String → Option ℚ)
    (agents : List RawAgent) : List CumPoint :=
  buildCumulative (globalEvents (annotateAgents hav ef agents))

/-- `precomputed.cumulativesByMode[m]` (empty for absent keys). -/
def modeCurve (hav : CleanedPoint → CleanedPoint → ℚ) (ef : String → Option ℚ)
    (agents : List RawAgent) (m : String) : List CumPoint :=
  buildCumulative (modeEvents (annotateAgents hav ef agents) m)

/-- The as-of query shared by `currentEmission` (App.jsx 1585–1592) and
`currentEmissionByMode` (1594–1604): `findIndex(p => p.t > t)`; `-1` gives the
last cumulative value, index `0` gives `0`, index `i + 1` gives the
cumulative value at `i`. -/
def emissionAsOf (cum : List CumPoint) (q : ℚ) : ℚ :=
  if cum.isEmpty then 0
  else
    match cum.findIdx? (fun p => jsGtNum p.t q) with
    | none => (cum.getLastD ⟨.undef, 0⟩).emission_g_cum
    | some 0 => 0
    | some (i + 1) => (cum[i]?.map CumPoint.emission_g_cum).getD 0

/-! ## Temporal Position Resolver (`getAgentPosition`, App.jsx 1045–1092) -/

/-- The record `{ position: [lng, lat], mode }` returned by the resolver,
with the two entries of the position array as separate fields. -/
structure PosInfo where
  lng : JSVal
  lat : JSVal
  mode : Option String
  deriving DecidableEq, Repr

/-- `leg.start_time ?? leg.startTime ?? path[0]?.t` under the
`typeof start === 'number'` guard (App.jsx 1051, 1053). -/
def posStart? (leg : AnnLeg) : Option ℚ :=
  (jsCoalesce leg.start_time (jsCoalesce leg.startTime
    (optNum ((leg.path.head?).bind CleanedPoint.t)))).typeofNumber?

/-- `leg.end_time ?? leg.endTime ?? path[path.length - 1]?.t` under the
`typeof end === 'number'` guard (App.jsx 1052–1053). -/
def posEnd? (leg : AnnLeg) : Option ℚ :=
  (jsCoalesce leg.end_time (jsCoalesce leg.endTime
    (optNum ((leg.path.getLast?).bind CleanedPoint.t)))).typeofNumber?

/-- The bracketing-pair scan of `interpolateLngLat` (App.jsx 1083–1090).
In the only reachable zero-denominator case (`p.t = q.t = t`) the JS fraction
is `0/0 = NaN`, propagated through the blend. -/
def interpGo (t : ℚ) : List CleanedPoint → Option (JSVal × JSVal)
  | p :: q :: rest =>
      (match p.t, q.t with
       | some pt, some qt =>
           if pt ≤ t ∧ t ≤ qt then
             let f : JSVal := if qt - pt = 0 then .nan else .num ((t - pt) / (qt - pt))
             some (jsAdd p.lng (jsMul f (jsSub q.lng p.lng)),
                   jsAdd p.lat (jsMul f (jsSub q.lat p.lat)))
           else interpGo t (q :: rest)
       | _, _ => interpGo t (q :: rest))
  | _ => none

/-- `interpolateLngLat(path, t)` (App.jsx 1078–1092). -/
def interpolateLngLat (path : List CleanedPoint) (t : ℚ) : Option (JSVal × JSVal) :=
  match path with
  | [] => none
  | p0 :: rest =>
    let pl := (p0 :: rest).getLastD p0
    if jsLeOpt t p0.t then some (p0.lng, p0.lat)
    else if jsGeOpt t pl.t then some (pl.lng, pl.lat)
    else interpGo t (p0 :: rest)

/-- The leg scan of `getAgentPosition` (App.jsx 1048–1075), threading the
"last completed leg" fallback. -/
def posScan (agentMode : Option String) (time : ℚ) :
    List AnnLeg → Option PosInfo → Option PosInfo
  | [], fb => fb
  | leg :: rest, fb =>
    match leg.path with
    | [] => posScan agentMode time rest fb
    | p0 :: ptl =>
      match posStart? leg, posEnd? leg with
      | some s, some e =>
        if e = s then posScan agentMode time rest fb
        else
          let pl := (p0 :: ptl).getLastD p0
          let md := leg.mode.orElse (fun _ => agentMode)
          if time ≤ s then some ⟨p0.lng, p0.lat, md⟩
          else if e ≤ time then posScan agentMode time rest (some ⟨pl.lng, pl.lat, md⟩)
          else
            match interpolateLngLat (p0 :: ptl) time with
            | some pos => some ⟨pos.1, pos.2, md⟩
            | none =>
              let frac := (time - s) / (e - s)
              some ⟨jsAdd p0.lng (jsMul (jsSub pl.lng p0.lng) (.num frac)),
                    jsAdd p0.lat (jsMul (jsSub pl.lat p0.lat) (.num frac)), md⟩
      | _, _ => posScan agentMode time rest fb

/-- `getAgentPosition(agent, time)` (App.jsx 1045–1076). -/
def getAgentPosition (a : AnnAgent) (time : ℚ) : Option PosInfo :=
  if a.legs.isEmpty then none
  else posScan a.mode time a.legs none

/-! ## Carbon Credit Scorer (`carbonLeaderboard`, App.jsx 1607–1636) -/

/-- `CARBON_WEIGHTS` (App.jsx 895–902). -/
def CARBON_WEIGHTS (m : String) : Option ℚ :=
  if m = "walk" then some 5
  else if m = "bike" then some 4
  else if m = "bus" then some 2
  else if m = "subway" then some 2
  else if m = "car_ev" then some 1
  else if m = "car_ice" then some 0
  else none

/-- One leg's contribution to an agent's score at time `t` (App.jsx 1612–1621):
skip when `tEnd == null` or `t < tEnd`; `m = String(mRaw || '').toLowerCase()`;
`km = Number(leg.distance_km) || 0` is the identity on exact rationals (and
`Number.isFinite(km)` always holds); skip when `km <= 0`;
otherwise add `km * (CARBON_WEIGHTS[m] ?? 0)`. -/
def legCredit (agentMode : Option String) (t : ℚ) (leg : AnnLeg) : ℚ :=
  if (aggLegEnd leg).isNullish then 0
  else if jsLtNum t (aggLegEnd leg) then 0
  else if leg.distance_km ≤ 0 then 0
  else
    leg.distance_km *
      ((CARBON_WEIGHTS (((leg.mode.orElse (fun _ => agentMode)).getD "").toLower)).getD 0)

/-- An agent's carbon-credit score at query time `t`. -/
def agentScore (a : AnnAgent) (t : ℚ) : ℚ :=
  (a.legs.map (legCredit a.mode t)).sum

/-- A leaderboard row `{ agentId, score, delta }`. -/
structure CreditRow where
  agentId : String
  score : ℚ
  delta : ℚ
  deriving DecidableEq, Repr

/-- The unsorted rows: `agentId = a.id ?? 'Unknown'`,
`delta = max(0, score - (prev[agentId] || 0))` (App.jsx 1622–1625). -/
def leaderRows (ags : List AnnAgent) (t : ℚ) (prev : String → ℚ) : List CreditRow :=
  ags.map (fun a =>
    let agentId := a.id.getD "Unknown"
    let score := agentScore a t
    ⟨agentId, score, max 0 (score - prev agentId)⟩)

/-- The (stable, descending-by-score) order of `rows.sort((x, y) => y.score - x.score)`. -/
def rowLE (x y : CreditRow) : Bool := decide (y.score ≤ x.score)

/-- `carbonLeaderboard` at query time `t` given the recorded previous scores. -/
def carbonLeaderboard (ags : List AnnAgent) (t : ℚ) (prev : String → ℚ) : List CreditRow :=
  (leaderRows ags t prev).mergeSort rowLE

/-- The effect at App.jsx 1632–1636: rebuild `prevScoresRef.current` from the
rows (later rows overwrite earlier ones), read back with `|| 0` for missing
keys (and `score || 0 = score` for exact rationals). -/
def recordScores (rows : List CreditRow) : String → ℚ :=
  rows.foldl (fun m r => fun key => if key = r.agentId then r.score else m key) (fun _ => 0)

/-! ## Reasoning Log Builder (`buildReasoningLogsFromScenario`, App.jsx 1135–1195) -/

/-- The `find` predicate over rationale candidates (App.jsx 1156–1161). -/
def rvalHasText : RVal → Bool
  | .str s => s.trim != ""
  | .arr cs => cs.any (fun c => match c with
      | .str s => s.trim != ""
      | _ => false)
  | .obj t => (match t with
      | .str s => s.trim != ""
      | _ => false)
  | .nothing => false

/-- `Array.prototype.join(' ')`. -/
def joinSpace : List String → String
  | [] => ""
  | [s] => s
  | s :: rest => s ++ " " ++ joinSpace rest

/-- The extraction of `reasonText` from the found candidate
(App.jsx 1163–1173). -/
def rvalText : RVal → String
  | .str s => s.trim
  | .arr cs => joinSpace (cs.filterMap (fun c => match c with
      | .str s => if s.trim = "" then none else some s.trim
      | _ => none))
  | .obj t => (match t with
      | .str s => s.trim
      | _ => "")
  | .nothing => ""

/-- The extracted rationale text of a leg: first non-empty candidate among
`leg.reasoning`, `agent.reasoning`, `agent.rationale`, else `""`. -/
def reasonTextOf (a : RawAgent) (leg : PostLeg) : String :=
  match [leg.reasoning, a.reasoning, a.rationale].find? rvalHasText with
  | some r => rvalText r
  | none => ""

/-- `Number.MAX_SAFE_INTEGER`. -/
def maxSafeInteger : ℚ := 9007199254740991

/-- `leg.start_time ?? leg.startTime ?? leg.path?.[0]?.t ?? null` under the
`typeof start === 'number'` test (App.jsx 1145, 1186–1187). -/
def logStart? (leg : PostLeg) : Option ℚ :=
  (jsCoalesce leg.start_time (jsCoalesce leg.startTime
    (optNum ((leg.path.head?).bind CleanedPoint.t)))).typeofNumber?

/-- A reasoning-log entry.  The presentation-only `timeLabel` string and the
"(distance · duration)" metrics suffix appended to `reason` are elided: they
affect neither an entry's presence, nor its timestamp, nor the order. -/
structure LogEntry where
  agentId : String
  mode : String
  reason : String
  timestamp : ℚ
  moveIndex : ℕ
  deriving DecidableEq, Repr

/-- One pushed entry (App.jsx 1182–1189); `nPrior` is `logs.length` at push
time (used for the fallback agent id). -/
def mkLogEntry (a : RawAgent) (nPrior : ℕ) (mi : ℕ) (leg : PostLeg) (txt : String) :
    LogEntry :=
  { agentId := a.id.getD ("Agent-" ++ toString (nPrior + 1)),
    mode := (leg.mode.orElse (fun _ => a.mode)).getD "unknown",
    reason := txt,
    timestamp := (logStart? leg).getD maxSafeInteger,
    moveIndex := mi }

/-- The per-agent leg loop (App.jsx 1142–1190): `moveIndex` is incremented at
the top of the loop; a leg with empty extracted text contributes nothing
(`if (!reasonText) continue`). -/
def pushLegEntries (a : RawAgent) : List PostLeg → List LogEntry → ℕ → List LogEntry
  | [], acc, _ => acc
  | leg :: rest, acc, mi =>
      let txt := reasonTextOf a leg
      if txt = "" then pushLegEntries a rest acc (mi + 1)
      else pushLegEntries a rest (acc ++ [mkLogEntry a acc.length (mi + 1) leg txt]) (mi + 1)

/-- The (stable, ascending) order of `logs.sort((a, b) => a.timestamp - b.timestamp)`. -/
def logLE (x y : LogEntry) : Bool := decide (x.timestamp ≤ y.timestamp)

/-- `buildReasoningLogsFromScenario(scenario)` (App.jsx 1135–1195);
`none` models a nullish scenario, and a missing/non-array `scenario.agents`
is the empty agent list. -/
def buildReasoningLogsFromScenario (scenario : Option (List RawAgent)) : List LogEntry :=
  match scenario with
  | none => []
  | some agents =>
    (agents.foldl (fun acc a => pushLegEntries a (extractLegs a) acc 0) []).mergeSort logLE

/-! ## C6: emission mass = distance × looked-up factor -/

/-- C6: For every leg of every agent, the cached emission mass in grams equals
the leg's distance in kilometers multiplied by the emission factor looked up by
the leg's own mode, falling back to the agent's declared mode when the leg's
mode is absent from the factor table, and falling back to 0 when neither mode
is present.  (All functions involved are total, so a missing mode or factor
never raises an error.) -/
theorem emission_is_distance_times_factor
    (hav : CleanedPoint → CleanedPoint → ℚ) (ef : String → Option ℚ) (a : RawAgent) :
    ∀ leg ∈ (annotateAgent hav ef a).legs,
      leg.emission_g =
        leg.distance_km * ((ef (jsKey leg.mode)).getD ((ef (jsKey a.mode)).getD 0)) := by
  intro leg hleg
  simp only [annotateAgent, List.mem_map] at hleg
  obtain ⟨pl, _, rfl⟩ := hleg
  rfl

/-- A raw leg with a trusted numeric `distance_m`, for the C6 witness. -/
def rawLegW6 : RawLeg := { distance_m := JSVal.num 3000 }

/-- A bus agent with one leg, for the C6 witness. -/
def agentW6 : RawAgent := { mode := some "bus", legs := some [rawLegW6] }

/-- The annotated leg of `agentW6`. -/
def annLegW6 : AnnLeg :=
  annotateLeg (fun _ _ => 0) DEFAULT_EF agentW6 (extractLegFromRaw (some "bus") rawLegW6)

theorem emission_is_distance_times_factor_witness :
    annLegW6 ∈ (annotateAgent (fun _ _ => 0) DEFAULT_EF agentW6).legs ∧
      annLegW6.emission_g =
        annLegW6.distance_km *
          ((DEFAULT_EF (jsKey annLegW6.mode)).getD ((DEFAULT_EF (jsKey agentW6.mode)).getD 0)) :=
  ⟨List.mem_singleton.mpr rfl,
   emission_is_distance_times_factor (fun _ _ => 0) DEFAULT_EF agentW6 annLegW6
     (List.mem_singleton.mpr rfl)⟩

/-! ## C4: a degenerate leg (start = end) is skipped entirely -/

/-- The degenerate leg for C4: `start_time = end_time = 5`, non-empty path. -/
def legW4 : AnnLeg :=
  { start_time := .num 5, startTime := .undef, end_time := .num 5, endTime := .undef,
    mode := some "walk", path := [⟨.num 1, .num 2, some 5⟩],
    duration_s := .undef, duration := .undef, distance_m := .undef, distance := .undef,
    reasoning := .nothing, rationale := .nothing, distance_km := 0, emission_g := 0 }

/-- An agent whose only leg is the degenerate `legW4`. -/
def agentW4 : AnnAgent :=
  { id := none, mode := some "walk", legs := [legW4],
    reasoning := .nothing, rationale := .nothing }

/-- C4 counterexample: for an agent whose only leg is degenerate
(`start = end = 5`, non-empty path) and query time `t = 5 ≥ end`, the claim
says the query returns the leg's last path point rather than null — but the
source `continue`s on `end === start` *before* recording the past fallback,
so the query returns null. -/
theorem degenerate_leg_claim_counterexample :
    posEnd? legW4 = some 5 ∧ legW4.path ≠ [] ∧ getAgentPosition agentW4 5 = none := by
  decide

/-- C4 amended: a leg whose resolved start time equals its resolved end time is
skipped entirely by the position query — it never matches the
within-interpolation branch and never records a past fallback — so an agent
whose only leg is such a degenerate leg gets `null` at every query time `t`
(in particular at every `t ≥` the leg's end). -/
theorem degenerate_leg_returns_none (a : AnnAgent) (leg : AnnLeg) (s t : ℚ)
    (hlegs : a.legs = [leg]) (hpath : leg.path ≠ [])
    (hs : posStart? leg = some s) (he : posEnd? leg = some s) :
    getAgentPosition a t = none := by
  obtain ⟨p0, ptl, hp⟩ : ∃ p0 ptl, leg.path = p0 :: ptl := by
    cases h : leg.path with
    | nil => exact absurd h hpath
    | cons p0 ptl => exact ⟨p0, ptl, rfl⟩
  simp [getAgentPosition, hlegs, posScan, hp, hs, he]

theorem degenerate_leg_returns_none_witness : getAgentPosition agentW4 7 = none :=
  degenerate_leg_returns_none agentW4 legW4 5 7 rfl (by decide) (by decide) (by decide)

/-! ## C2: query strictly between two legs -/

/-- Leg A of the C2 scenario, spanning `[0, 10]`. -/
def legW2A : AnnLeg :=
  { start_time := .num 0, startTime := .undef, end_time := .num 10, endTime := .undef,
    mode := some "walk", path := [⟨.num 0, .num 0, some 0⟩, ⟨.num 1, .num 1, some 10⟩],
    duration_s := .undef, duration := .undef, distance_m := .undef, distance := .undef,
    reasoning := .nothing, rationale := .nothing, distance_km := 0, emission_g := 0 }

/-- Leg B of the C2 scenario, spanning `[20, 30]`. -/
def legW2B : AnnLeg :=
  { start_time := .num 20, startTime := .undef, end_time := .num 30, endTime := .undef,
    mode := some "walk", path := [⟨.num 2, .num 2, some 20⟩, ⟨.num 3, .num 3, some 30⟩],
    duration_s := .undef, duration := .undef, distance_m := .undef, distance := .undef,
    reasoning := .nothing, rationale := .nothing, distance_km := 0, emission_g := 0 }

/-- The two-leg agent of the C2 scenario. -/
def agentW2 : AnnAgent :=
  { id := none, mode := some "walk", legs := [legW2A, legW2B],
    reasoning := .nothing, rationale := .nothing }

/-- C2 counterexample: with leg A `[0,10]` ending at `(1,1)` and leg B
`[20,30]` starting at `(2,2)`, the query at `t = 15` returns `(2,2)` — leg B's
*first* path point (the later leg's "not yet departed" branch fires and
short-circuits) — and not leg A's last path point `(1,1)` as the claim
states. -/
theorem between_legs_claim_counterexample :
    getAgentPosition agentW2 15 = some ⟨JSVal.num 2, JSVal.num 2, some "walk"⟩ ∧
      (JSVal.num 2, JSVal.num 2) ≠ (JSVal.num 1, JSVal.num 1) := by
  decide

/-- C2 amended: for an agent with exactly two legs, leg A resolving to span
`[0,10]` and leg B to `[20,30]`, each with a non-empty timestamped path, the
position query at `t = 15` returns leg B's *first* path point (leg B's
`t ≤ start` branch is an immediate match and takes precedence over leg A's
recorded "last completed" fallback). -/
theorem between_legs_returns_next_start (a : AnnAgent) (lA lB : AnnLeg)
    (pA0 pB0 : CleanedPoint) (pAtl pBtl : List CleanedPoint)
    (hlegs : a.legs = [lA, lB])
    (hpA : lA.path = pA0 :: pAtl) (hpB : lB.path = pB0 :: pBtl)
    (hAs : posStart? lA = some 0) (hAe : posEnd? lA = some 10)
    (hBs : posStart? lB = some 20) (hBe : posEnd? lB = some 30)
    (hts : ∀ p ∈ lA.path ++ lB.path, p.t.isSome) :
    getAgentPosition a 15 =
      some ⟨pB0.lng, pB0.lat, lB.mode.orElse (fun _ => a.mode)⟩ := by
  simp [getAgentPosition, hlegs, posScan, hpA, hpB, hAs, hAe, hBs, hBe]
  norm_num

theorem between_legs_returns_next_start_witness :
    getAgentPosition agentW2 15 = some ⟨JSVal.num 2, JSVal.num 2, some "walk"⟩ :=
  between_legs_returns_next_start agentW2 legW2A legW2B
    ⟨.num 0, .num 0, some 0⟩ ⟨.num 2, .num 2, some 20⟩
    [⟨.num 1, .num 1, some 10⟩] [⟨.num 3, .num 3, some 30⟩]
    rfl rfl rfl (by decide) (by decide) (by decide) (by decide) (by decide)

/-! ## C8: which malformed points are dropped -/

/-- C8 counterexample: a tuple-form point receives *no* numeric coordinate
check — the empty tuple survives cleaning with `lng = lat = undefined` — so
the returned sequence is non-empty and contains a point without numeric
longitude/latitude, contradicting the claim that every returned point has
numeric `lng` and `lat` for tuple-form points as well. -/
theorem tuple_points_unfiltered_counterexample :
    normalizePathWithTime (some [RawPoint.tuple []]) .undef .undef ≠ [] ∧
      (normalizePathWithTime (some [RawPoint.tuple []]) .undef .undef).all
        (fun p => p.lng.isNumber && p.lat.isNumber) = false := by
  decide

/-- C8 amended: an *object-form* point lacking a resolvable numeric longitude
or latitude is dropped silently, so every surviving object-form point has
numeric `lng` and `lat`; tuple-form points are kept without any coordinate
check; a null/non-array input yields the empty sequence, as does an input all
of whose points are filtered out.  (Everything is a total function: no input
raises an error.) -/
theorem normalize_drops_object_points_and_handles_null :
    (∀ lng lon longitude x lat latitude y t time timestamp c,
        cleanPoint (.obj lng lon longitude x lat latitude y t time timestamp) = some c →
          c.lng.isNumber = true ∧ c.lat.isNumber = true) ∧
      (∀ s e, normalizePathWithTime none s e = []) ∧
      (∀ pts s e, (∀ p ∈ pts, cleanPoint p = none) →
        normalizePathWithTime (some pts) s e = []) := by
  refine ⟨?_, fun s e => rfl, ?_⟩
  · intro lng lon longitude x lat latitude y t time timestamp c hc
    cases hl : (jsCoalesce lng (jsCoalesce lon (jsCoalesce longitude x))).typeofNumber? with
    | none => simp [cleanPoint, hl] at hc
    | some lq =>
      cases ha : (jsCoalesce lat (jsCoalesce latitude y)).typeofNumber? with
      | none => simp [cleanPoint, hl, ha] at hc
      | some aq =>
        simp only [cleanPoint, hl, ha, Option.some.injEq] at hc
        rw [← hc]
        exact ⟨rfl, rfl⟩
  · intro pts s e h
    have hnil : pts.filterMap cleanPoint = [] := List.filterMap_eq_nil_iff.mpr h
    simp [normalizePathWithTime, hnil]

theorem normalize_drops_object_points_witness :
    ((CleanedPoint.mk (.num 1) (.num 2) none).lng.isNumber = true ∧
        (CleanedPoint.mk (.num 1) (.num 2) none).lat.isNumber = true) ∧
      normalizePathWithTime (some [RawPoint.falsy, RawPoint.prim]) .undef .undef = [] :=
  ⟨normalize_drops_object_points_and_handles_null.1
      (.num 1) .undef .undef .undef (.num 2) .undef .undef .undef .undef .undef
      ⟨.num 1, .num 2, none⟩ (by decide),
   normalize_drops_object_points_and_handles_null.2.2
      [RawPoint.falsy, RawPoint.prim] .undef .undef (by decide)⟩

/-! ## C5: path-time invariant after normalization -/

/-- Pre-timestamped input for the C5 counterexample: explicit times `99` then
`3`, with declared leg span `[0, 10]`. -/
def ptsW5 : List RawPoint :=
  [.tuple [.num 0, .num 0, .num 99], .tuple [.num 1, .num 1, .num 3]]

/-- C5 counterexample: when every surviving point already carries an explicit
time, the path is returned as-is with no reordering or validation — here the
normalized times are `[99, 3]`, which are not non-decreasing, and the first
point's time is `99`, not the leg start `0`. -/
theorem path_time_invariant_counterexample :
    ¬ (normalizePathWithTime (some ptsW5) (.num 0) (.num 10)).Pairwise
        (fun p q => p.t.getD 0 ≤ q.t.getD 0) ∧
      (normalizePathWithTime (some ptsW5) (.num 0) (.num 10)).head?.map CleanedPoint.t ≠
        some (some 0) := by
  decide

lemma synthTimes_t_mem (s d st : ℚ) :
    ∀ (l : List CleanedPoint) (i : ℕ) (p : CleanedPoint), p ∈ synthTimes s d st i l →
      ∃ j : ℕ, i ≤ j ∧ p.t = some (s + d * (j : ℚ) / st)
  | [], i, p, h => by simp [synthTimes] at h
  | q :: r, i, p, h => by
    simp only [synthTimes, List.mem_cons] at h
    rcases h with h | h
    · exact ⟨i, le_refl i, by rw [h]⟩
    · obtain ⟨j, hij, hp⟩ := synthTimes_t_mem s d st r (i + 1) p h
      exact ⟨j, by omega, hp⟩

lemma synthTimes_pairwise (s d st : ℚ) (hd : 0 ≤ d) (hst : 0 < st) :
    ∀ (l : List CleanedPoint) (i : ℕ),
      (synthTimes s d st i l).Pairwise (fun p q => p.t.getD 0 ≤ q.t.getD 0)
  | [], _ => by simp [synthTimes]
  | p :: r, i => by
    simp only [synthTimes, List.pairwise_cons]
    refine ⟨fun q hq => ?_, synthTimes_pairwise s d st hd hst r (i + 1)⟩
    obtain ⟨j, hij, hqt⟩ := synthTimes_t_mem s d st r (i + 1) q hq
    rw [hqt]
    simp only [Option.getD_some]
    have hcast : (i : ℚ) ≤ (j : ℚ) := by exact_mod_cast (by omega : i ≤ j)
    gcongr

lemma synthTimes_getLast (s d st : ℚ) :
    ∀ (l : List CleanedPoint) (i : ℕ), l ≠ [] →
      (synthTimes s d st i l).getLast?.map CleanedPoint.t =
        some (some (s + d * ((i + l.length - 1 : ℕ) : ℚ) / st))
  | [], _, h => absurd rfl h
  | [p], i, _ => by simp [synthTimes]
  | p :: q :: r, i, _ => by
    have ih := synthTimes_getLast s d st (q :: r) (i + 1) (by simp)
    have hidx : (i + 1 + (q :: r).length - 1 : ℕ) = (i + (p :: q :: r).length - 1 : ℕ) := by
      simp only [List.length_cons]
      omega
    rw [hidx] at ih
    simpa only [synthTimes, List.getLast?_cons_cons] using ih

/-- C5 amended: when times must be synthesized (not every surviving point
carries an explicit numeric time) and the supplied numeric start/end satisfy
`start < end` with at least two surviving points, the normalized path's times
are non-decreasing, every point carries a time, the first point's time equals
the start and the last point's time equals the end.  (The counterexample shows
the invariant fails when all points are pre-timestamped, and the source
returns such paths unvalidated.) -/
theorem synthesized_path_time_invariant (pts : List RawPoint) (s e : ℚ) (hse : s < e)
    (hnt : (pts.filterMap cleanPoint).all (fun p => p.t.isSome) = false)
    (h2 : 2 ≤ (pts.filterMap cleanPoint).length) :
    (normalizePathWithTime (some pts) (.num s) (.num e)).Pairwise
        (fun p q => p.t.getD 0 ≤ q.t.getD 0) ∧
      (∀ p ∈ normalizePathWithTime (some pts) (.num s) (.num e), p.t.isSome) ∧
      (normalizePathWithTime (some pts) (.num s) (.num e)).head?.map CleanedPoint.t =
        some (some s) ∧
      (normalizePathWithTime (some pts) (.num s) (.num e)).getLast?.map CleanedPoint.t =
        some (some e) := by
  set cleaned := pts.filterMap cleanPoint with hcl
  have hne : cleaned.isEmpty = false := by
    cases h : cleaned with
    | nil => rw [h] at h2; simp at h2
    | cons a l => simp [h]
  have hout : normalizePathWithTime (some pts) (.num s) (.num e) =
      synthTimes s (e - s) (synthSteps cleaned.length) 0 cleaned := by
    simp only [normalizePathWithTime, ← hcl, hne, Bool.false_eq_true, if_false, hnt,
      JSVal.typeofNumber?]
    rw [if_neg (not_le.mpr hse)]
  have hstep : synthSteps cleaned.length = ((cleaned.length - 1 : ℕ) : ℚ) := by
    have : cleaned.length - 1 ≠ 0 := by omega
    simp [synthSteps, this]
  have hstpos : 0 < synthSteps cleaned.length := by
    rw [hstep]
    exact_mod_cast (by omega : 0 < cleaned.length - 1)
  have hd : (0 : ℚ) ≤ e - s := by linarith
  obtain ⟨c0, ctl, hc0⟩ : ∃ c0 ctl, cleaned = c0 :: ctl := by
    cases h : cleaned with
    | nil => rw [h] at h2; simp at h2
    | cons a l => exact ⟨a, l, rfl⟩
  refine ⟨?_, ?_, ?_, ?_⟩
  · rw [hout]; exact synthTimes_pairwise s (e - s) _ hd hstpos cleaned 0
  · intro p hp
    rw [hout] at hp
    obtain ⟨j, _, hpt⟩ := synthTimes_t_mem s (e - s) _ cleaned 0 p hp
    simp [hpt]
  · rw [hout, hc0]
    simp only [synthTimes, List.head?_cons, Option.map_some]
    norm_num
  · rw [hout, synthTimes_getLast s (e - s) _ cleaned 0 (by rw [hc0]; simp)]
    have hne0 : ((cleaned.length - 1 : ℕ) : ℚ) ≠ 0 := by
      exact_mod_cast (by omega : cleaned.length - 1 ≠ 0)
    rw [hstep]
    have hval : s + (e - s) * ((0 + cleaned.length - 1 : ℕ) : ℚ) /
        ((cleaned.length - 1 : ℕ) : ℚ) = e := by
      have h0 : (0 + cleaned.length - 1 : ℕ) = cleaned.length - 1 := by omega
      rw [h0, mul_div_assoc, div_self hne0, mul_one]
      ring
    rw [hval]

theorem synthesized_path_time_invariant_witness :
    (normalizePathWithTime (some [RawPoint.tuple [JSVal.num 0, JSVal.num 0],
          RawPoint.tuple [JSVal.num 1, JSVal.num 1]]) (.num 0) (.num 10)).Pairwise
        (fun p q => p.t.getD 0 ≤ q.t.getD 0) ∧
      (∀ p ∈ normalizePathWithTime (some [RawPoint.tuple [JSVal.num 0, JSVal.num 0],
          RawPoint.tuple [JSVal.num 1, JSVal.num 1]]) (.num 0) (.num 10), p.t.isSome) ∧
      (normalizePathWithTime (some [RawPoint.tuple [JSVal.num 0, JSVal.num 0],
          RawPoint.tuple [JSVal.num 1, JSVal.num 1]]) (.num 0) (.num 10)).head?.map
          CleanedPoint.t = some (some 0) ∧
      (normalizePathWithTime (some [RawPoint.tuple [JSVal.num 0, JSVal.num 0],
          RawPoint.tuple [JSVal.num 1, JSVal.num 1]]) (.num 0) (.num 10)).getLast?.map
          CleanedPoint.t = some (some 10) :=
  synthesized_path_time_invariant
    [RawPoint.tuple [JSVal.num 0, JSVal.num 0], RawPoint.tuple [JSVal.num 1, JSVal.num 1]]
    0 10 (by norm_num) (by decide) (by decide)

/-! ## C3: cumulative curves are monotone -/

lemma prefixCum_mem_ge :
    ∀ (l : List EmEvent) (acc : ℚ), (∀ e ∈ l, 0 ≤ e.emission_g) →
      ∀ p ∈ prefixCum acc l, acc ≤ p.emission_g_cum
  | [], acc, _, p, hp => by simp [prefixCum] at hp
  | e :: r, acc, h, p, hp => by
    have he : 0 ≤ e.emission_g := h e (List.mem_cons_self e r)
    simp only [prefixCum, List.mem_cons] at hp
    rcases hp with hp | hp
    · rw [hp]; simpa using he
    · have := prefixCum_mem_ge r (acc + e.emission_g)
        (fun x hx => h x (List.mem_cons_of_mem _ hx)) p hp
      linarith

lemma prefixCum_pairwise :
    ∀ (l : List EmEvent) (acc : ℚ), (∀ e ∈ l, 0 ≤ e.emission_g) →
      (prefixCum acc l).Pairwise (fun p q => p.emission_g_cum ≤ q.emission_g_cum)
  | [], _, _ => by simp [prefixCum]
  | e :: r, acc, h => by
    simp only [prefixCum, List.pairwise_cons]
    refine ⟨fun q hq => ?_,
      prefixCum_pairwise r (acc + e.emission_g)
        (fun x hx => h x (List.mem_cons_of_mem _ hx))⟩
    exact prefixCum_mem_ge r _ (fun x hx => h x (List.mem_cons_of_mem _ hx)) q hq

lemma buildCumulative_pairwise (evs : List EmEvent) (h : ∀ e ∈ evs, 0 ≤ e.emission_g) :
    (buildCumulative evs).Pairwise (fun p q => p.emission_g_cum ≤ q.emission_g_cum) := by
  exact prefixCum_pairwise _ 0 (fun e he => h e (List.mem_mergeSort.mp he))

lemma globalEvents_emission (ags : List AnnAgent) :
    ∀ ev ∈ globalEvents ags, ∃ a ∈ ags, ∃ leg ∈ a.legs, ev.emission_g = leg.emission_g := by
  intro ev hev
  simp only [globalEvents, List.mem_flatMap, List.mem_filterMap] at hev
  obtain ⟨a, ha, leg, hleg, hsome⟩ := hev
  refine ⟨a, ha, leg, hleg, ?_⟩
  split at hsome
  · exact absurd hsome (by simp)
  · cases hsome; rfl

lemma modeEvents_emission (ags : List AnnAgent) (m : String) :
    ∀ ev ∈ modeEvents ags m, ∃ a ∈ ags, ∃ leg ∈ a.legs, ev.emission_g = leg.emission_g := by
  intro ev hev
  simp only [modeEvents, List.mem_flatMap, List.mem_filterMap] at hev
  obtain ⟨a, ha, leg, hleg, hsome⟩ := hev
  refine ⟨a, ha, leg, hleg, ?_⟩
  split at hsome
  · exact absurd hsome (by simp)
  · split at hsome
    · cases hsome; rfl
    · exact absurd hsome (by simp)

/-- C3: when every annotated leg's computed emission mass is non-negative, the
global cumulative curve and every per-mode cumulative curve built by the
aggregation (stable sort by completion time, then prefix sum) have
non-decreasing cumulative values along the curve. -/
theorem cumulative_curves_monotone (hav : CleanedPoint → CleanedPoint → ℚ)
    (ef : String → Option ℚ) (agents : List RawAgent)
    (h : ∀ a ∈ annotateAgents hav ef agents, ∀ leg ∈ a.legs, 0 ≤ leg.emission_g) :
    (cumulativeCurve hav ef agents).Pairwise
        (fun p q => p.emission_g_cum ≤ q.emission_g_cum) ∧
      ∀ m, (modeCurve hav ef agents m).Pairwise
        (fun p q => p.emission_g_cum ≤ q.emission_g_cum) := by
  constructor
  · apply buildCumulative_pairwise
    intro ev hev
    obtain ⟨a, ha, leg, hleg, heq⟩ := globalEvents_emission _ ev hev
    rw [heq]
    exact h a ha leg hleg
  · intro m
    apply buildCumulative_pairwise
    intro ev hev
    obtain ⟨a, ha, leg, hleg, heq⟩ := modeEvents_emission _ m ev hev
    rw [heq]
    exact h a ha leg hleg

/-- A one-agent scenario for the C3 witness. -/
def agentsW3 : List RawAgent :=
  [{ mode := some "walk",
     legs := some [{ start_time := JSVal.num 0, end_time := JSVal.num 10,
                     distance_m := JSVal.num 1000 }] }]

lemma agentsW3_emissions_nonneg :
    ∀ a ∈ annotateAgents (fun _ _ => 0) DEFAULT_EF agentsW3, ∀ leg ∈ a.legs,
      0 ≤ leg.emission_g := by
  intro a ha leg hleg
  simp only [annotateAgents, annotateAgent, agentsW3, List.map_cons, List.map_nil,
    List.mem_singleton] at ha
  subst ha
  simp only [extractLegs, Option.getD_some, List.isEmpty_cons, Bool.false_eq_true,
    if_false, extractLegFromRaw, annotateLeg, List.map_cons, List.map_nil,
    List.mem_singleton] at hleg
  subst hleg
  norm_num [DEFAULT_EF, jsKey, JSVal.typeofNumber?]
  decide

theorem cumulative_curves_monotone_witness :
    (cumulativeCurve (fun _ _ => 0) DEFAULT_EF agentsW3).Pairwise
        (fun p q => p.emission_g_cum ≤ q.emission_g_cum) ∧
      (modeCurve (fun _ _ => 0) DEFAULT_EF agentsW3 "walk").Pairwise
        (fun p q => p.emission_g_cum ≤ q.emission_g_cum) :=
  ⟨(cumulative_curves_monotone (fun _ _ => 0) DEFAULT_EF agentsW3 agentsW3_emissions_nonneg).1,
   (cumulative_curves_monotone (fun _ _ => 0) DEFAULT_EF agentsW3
      agentsW3_emissions_nonneg).2 "walk"⟩

/-! ## C10: the carbon-credit score is monotone in query time and non-negative -/

lemma CARBON_WEIGHTS_getD_nonneg (m : String) : 0 ≤ (CARBON_WEIGHTS m).getD 0 := by
  unfold CARBON_WEIGHTS
  split_ifs <;> norm_num

lemma legCredit_nonneg (amode : Option String) (t : ℚ) (leg : AnnLeg) :
    0 ≤ legCredit amode t leg := by
  unfold legCredit
  split_ifs with h1 h2 h3
  · exact le_refl 0
  · exact le_refl 0
  · exact le_refl 0
  · exact mul_nonneg (le_of_lt (not_le.mp h3)) (CARBON_WEIGHTS_getD_nonneg _)

lemma jsLtNum_mono (t1 t2 : ℚ) (v : JSVal) (h : t1 ≤ t2) (h2 : jsLtNum t2 v = true) :
    jsLtNum t1 v = true := by
  unfold jsLtNum at h2 ⊢
  cases hv : v.toNumber with
  | none => rw [hv] at h2; exact absurd h2 (by simp)
  | some x =>
    rw [hv] at h2
    simp only [decide_eq_true_eq] at h2 ⊢
    linarith

lemma legCredit_mono (amode : Option String) (leg : AnnLeg) (t1 t2 : ℚ) (h : t1 ≤ t2) :
    legCredit amode t1 leg ≤ legCredit amode t2 leg := by
  by_cases hn : (aggLegEnd leg).isNullish
  · simp [legCredit, hn]
  · by_cases hl2 : jsLtNum t2 (aggLegEnd leg)
    · have hl1 : jsLtNum t1 (aggLegEnd leg) = true := jsLtNum_mono t1 t2 _ h hl2
      simp [legCredit, hn, hl1, hl2]
    · have hle : legCredit amode t2 leg =
          if leg.distance_km ≤ 0 then 0
          else leg.distance_km *
            ((CARBON_WEIGHTS (((leg.mode.orElse (fun _ => amode)).getD "").toLower)).getD 0) := by
        simp [legCredit, hn, hl2]
      rw [hle]
      by_cases hl1 : jsLtNum t1 (aggLegEnd leg)
      · have : legCredit amode t1 leg = 0 := by simp [legCredit, hn, hl1]
        rw [this]
        split_ifs with hkm
        · exact le_refl 0
        · exact mul_nonneg (le_of_lt (not_le.mp hkm)) (CARBON_WEIGHTS_getD_nonneg _)
      · simp [legCredit, hn, hl1]

/-- C10 (implicit): for a fixed agent of a fixed scenario, the carbon-credit
score is monotone non-decreasing in the query time — legs only join the
"completed" set as `t` grows, legs with non-positive distance are excluded,
and every mode weight is non-negative — and consequently every score is
non-negative. -/
theorem score_monotone_nonneg (a : AnnAgent) (t1 t2 : ℚ) (h : t1 ≤ t2) :
    agentScore a t1 ≤ agentScore a t2 ∧ 0 ≤ agentScore a t1 := by
  constructor
  · exact List.sum_le_sum (fun leg _ => legCredit_mono a.mode leg t1 t2 h)
  · apply List.sum_nonneg
    intro x hx
    simp only [List.mem_map] at hx
    obtain ⟨leg, _, rfl⟩ := hx
    exact legCredit_nonneg a.mode t1 leg

/-- A one-leg annotated agent for the C10 witness. -/
def agentW10 : AnnAgent :=
  { id := some "A1", mode := some "walk",
    legs := [{ start_time := .num 0, startTime := .undef, end_time := .num 10,
               endTime := .undef, mode := some "walk", path := [],
               duration_s := .undef, duration := .undef, distance_m := .undef,
               distance := .undef, reasoning := .nothing, rationale := .nothing,
               distance_km := 2, emission_g := 0 }],
    reasoning := .nothing, rationale := .nothing }

theorem score_monotone_nonneg_witness :
    agentScore agentW10 5 ≤ agentScore agentW10 20 ∧ 0 ≤ agentScore agentW10 5 :=
  score_monotone_nonneg agentW10 5 20 (by norm_num)

/-! ## C7: the delta between consecutive queries -/

lemma recordScores_not_mem :
    ∀ (rows : List CreditRow) (init : String → ℚ) (key : String),
      (∀ r ∈ rows, r.agentId ≠ key) →
      rows.foldl (fun m r => fun k => if k = r.agentId then r.score else m k) init key =
        init key
  | [], _, _, _ => rfl
  | r :: rs, init, key, h => by
    simp only [List.foldl_cons]
    rw [recordScores_not_mem rs _ key (fun x hx => h x (List.mem_cons_of_mem _ hx))]
    exact if_neg (Ne.symm (h r (List.mem_cons_self r rs)))

lemma recordScores_lookup_aux :
    ∀ (rows : List CreditRow) (init : String → ℚ) (r : CreditRow),
      (rows.map CreditRow.agentId).Nodup → r ∈ rows →
      rows.foldl (fun m x => fun k => if k = x.agentId then x.score else m k) init
        r.agentId = r.score
  | [], _, r, _, hr => absurd hr (List.not_mem_nil r)
  | x :: rs, init, r, hnd, hr => by
    simp only [List.map_cons, List.nodup_cons] at hnd
    simp only [List.foldl_cons]
    rcases List.mem_cons.mp hr with h | h
    · subst h
      rw [recordScores_not_mem rs _ r.agentId ?_]
      · simp
      · intro y hy hcontra
        exact hnd.1 (hcontra ▸ List.mem_map_of_mem CreditRow.agentId hy)
    · exact recordScores_lookup_aux rs _ r hnd.2 h

lemma recordScores_lookup (rows : List CreditRow) (r : CreditRow)
    (hnd : (rows.map CreditRow.agentId).Nodup) (hr : r ∈ rows) :
    recordScores rows r.agentId = r.score :=
  recordScores_lookup_aux rows _ r hnd hr

lemma leaderRows_ids (ags : List AnnAgent) (t : ℚ) (prev : String → ℚ) :
    (leaderRows ags t prev).map CreditRow.agentId =
      ags.map (fun a => a.id.getD "Unknown") := by
  rw [leaderRows, List.map_map]
  rfl

/-- C7: for two consecutive leaderboard queries at `t1` then `t2` against the
same annotated scenario (with distinct agent ids, the previous-score map being
exactly what the first query recorded), the row reported for every agent at
`t2` carries `delta = max(0, score@t2 − score@t1)`, which is non-negative. -/
theorem credit_delta_formula (ags : List AnnAgent) (t1 t2 : ℚ) (prev0 : String → ℚ)
    (hnd : (ags.map (fun a => a.id.getD "Unknown")).Nodup) (hlt : t1 < t2) :
    ∀ a ∈ ags,
      (⟨a.id.getD "Unknown", agentScore a t2,
          max 0 (agentScore a t2 - agentScore a t1)⟩ : CreditRow) ∈
          carbonLeaderboard ags t2 (recordScores (carbonLeaderboard ags t1 prev0)) ∧
        0 ≤ max 0 (agentScore a t2 - agentScore a t1) := by
  intro a ha
  refine ⟨?_, le_max_left 0 _⟩
  have hrow1 : (⟨a.id.getD "Unknown", agentScore a t1,
      max 0 (agentScore a t1 - prev0 (a.id.getD "Unknown"))⟩ : CreditRow) ∈
      carbonLeaderboard ags t1 prev0 := by
    rw [carbonLeaderboard, List.mem_mergeSort]
    exact List.mem_map_of_mem _ ha
  have hperm : List.Perm (carbonLeaderboard ags t1 prev0) (leaderRows ags t1 prev0) :=
    List.mergeSort_perm _ _
  have hnd1 : ((carbonLeaderboard ags t1 prev0).map CreditRow.agentId).Nodup := by
    refine ((hperm.map CreditRow.agentId).nodup_iff).mpr ?_
    rw [leaderRows_ids]
    exact hnd
  have hprev : recordScores (carbonLeaderboard ags t1 prev0) (a.id.getD "Unknown") =
      agentScore a t1 :=
    recordScores_lookup _ _ hnd1 hrow1
  rw [carbonLeaderboard, List.mem_mergeSort]
  have hmem : (⟨a.id.getD "Unknown", agentScore a t2,
      max 0 (agentScore a t2 -
        recordScores (carbonLeaderboard ags t1 prev0) (a.id.getD "Unknown"))⟩ : CreditRow) ∈
      leaderRows ags t2 (recordScores (carbonLeaderboard ags t1 prev0)) :=
    List.mem_map_of_mem _ ha
  rw [hprev] at hmem
  exact hmem

/-- A one-agent annotated scenario for the C7 witness. -/
def agentW7 : AnnAgent :=
  { id := some "W7", mode := some "bike",
    legs := [{ start_time := .num 0, startTime := .undef, end_time := .num 6,
               endTime := .undef, mode := some "bike", path := [],
               duration_s := .undef, duration := .undef, distance_m := .undef,
               distance := .undef, reasoning := .nothing, rationale := .nothing,
               distance_km := 3, emission_g := 0 }],
    reasoning := .nothing, rationale := .nothing }

theorem credit_delta_formula_witness :
    (⟨"W7", agentScore agentW7 9, max 0 (agentScore agentW7 9 - agentScore agentW7 4)⟩ :
        CreditRow) ∈
        carbonLeaderboard [agentW7] 9 (recordScores (carbonLeaderboard [agentW7] 4
          (fun _ => 0))) ∧
      0 ≤ max 0 (agentScore agentW7 9 - agentScore agentW7 4) :=
  credit_delta_formula [agentW7] 4 9 (fun _ => 0) (by decide) (by norm_num)
    agentW7 (List.mem_singleton.mpr rfl)

/-! ## C9: reasoning log ordering -/

lemma logLE_total : ∀ x y : LogEntry, logLE x y || logLE y x := by
  intro x y
  simp only [logLE, Bool.or_eq_true, decide_eq_true_eq]
  exact le_total x.timestamp y.timestamp

lemma logLE_trans : ∀ x y z : LogEntry, logLE x y → logLE y z → logLE x z := by
  intro x y z hxy hyz
  simp only [logLE, decide_eq_true_eq] at hxy hyz ⊢
  exact le_trans hxy hyz

lemma pushLegEntries_mem (a : RawAgent) :
    ∀ (legs : List PostLeg) (acc : List LogEntry) (mi : ℕ) (e : LogEntry),
      e ∈ pushLegEntries a legs acc mi →
      e ∈ acc ∨ (e.reason ≠ "" ∧ (e.timestamp = maxSafeInteger ∨
        ∃ leg ∈ legs, logStart? leg = some e.timestamp))
  | [], _, _, e, h => Or.inl h
  | leg :: rest, acc, mi, e, h => by
    simp only [pushLegEntries] at h
    by_cases ht : reasonTextOf a leg = ""
    · rw [if_pos ht] at h
      rcases pushLegEntries_mem a rest acc (mi + 1) e h with h' | h'
      · exact Or.inl h'
      · right
        refine ⟨h'.1, h'.2.imp id ?_⟩
        rintro ⟨l, hl, hs⟩
        exact ⟨l, List.mem_cons_of_mem _ hl, hs⟩
    · rw [if_neg ht] at h
      rcases pushLegEntries_mem a rest _ (mi + 1) e h with h' | h'
      · rcases List.mem_append.mp h' with h2 | h2
        · exact Or.inl h2
        · right
          have he : e = mkLogEntry a acc.length (mi + 1) leg (reasonTextOf a leg) := by
            simpa using h2
          subst he
          refine ⟨ht, ?_⟩
          cases hs : logStart? leg with
          | none => left; simp [mkLogEntry, hs]
          | some q =>
            right
            exact ⟨leg, List.mem_cons_self leg rest, by simp [mkLogEntry, hs]⟩
      · right
        refine ⟨h'.1, h'.2.imp id ?_⟩
        rintro ⟨l, hl, hs⟩
        exact ⟨l, List.mem_cons_of_mem _ hl, hs⟩

lemma foldl_logs_mem :
    ∀ (agents : List RawAgent) (acc : List LogEntry) (e : LogEntry),
      e ∈ agents.foldl (fun acc a => pushLegEntries a (extractLegs a) acc 0) acc →
      e ∈ acc ∨ (e.reason ≠ "" ∧ (e.timestamp = maxSafeInteger ∨
        ∃ a ∈ agents, ∃ leg ∈ extractLegs a, logStart? leg = some e.timestamp))
  | [], _, e, h => Or.inl h
  | a :: rest, acc, e, h => by
    simp only [List.foldl_cons] at h
    rcases foldl_logs_mem rest _ e h with h' | h'
    · rcases pushLegEntries_mem a _ _ _ e h' with h2 | h2
      · exact Or.inl h2
      · right
        refine ⟨h2.1, h2.2.imp id ?_⟩
        rintro ⟨leg, hl, hs⟩
        exact ⟨a, List.mem_cons_self a rest, leg, hl, hs⟩
    · right
      refine ⟨h'.1, h'.2.imp id ?_⟩
      rintro ⟨a', ha', leg, hl, hs⟩
      exact ⟨a', List.mem_cons_of_mem _ ha', leg, hl, hs⟩

/-- C9: when every resolvable leg start time is below `Number.MAX_SAFE_INTEGER`
(true of seconds-of-day data), the reasoning log is sorted ascending by
timestamp; entries whose leg start time was unresolvable carry
`MAX_SAFE_INTEGER` and therefore appear after all resolvable entries; and a
leg whose extracted rationale text is empty contributes no entry — every
produced entry has a non-empty reason. -/
theorem reasoning_log_sorted (agents : List RawAgent)
    (hb : ∀ a ∈ agents, ∀ leg ∈ extractLegs a, ∀ q,
      logStart? leg = some q → q < maxSafeInteger) :
    (buildReasoningLogsFromScenario (some agents)).Pairwise
        (fun x y => x.timestamp ≤ y.timestamp) ∧
      (buildReasoningLogsFromScenario (some agents)).Pairwise
        (fun x y => x.timestamp = maxSafeInteger → y.timestamp = maxSafeInteger) ∧
      ∀ e ∈ buildReasoningLogsFromScenario (some agents), e.reason ≠ "" := by
  have hsorted : (buildReasoningLogsFromScenario (some agents)).Pairwise
      (fun x y => logLE x y = true) := by
    rw [buildReasoningLogsFromScenario]
    exact List.sorted_mergeSort logLE_trans logLE_total _
  have hmem : ∀ e ∈ buildReasoningLogsFromScenario (some agents),
      e.reason ≠ "" ∧ (e.timestamp = maxSafeInteger ∨ e.timestamp < maxSafeInteger) := by
    intro e he
    rw [buildReasoningLogsFromScenario, List.mem_mergeSort] at he
    rcases foldl_logs_mem agents [] e he with h | h
    · exact absurd h (List.not_mem_nil e)
    · refine ⟨h.1, h.2.imp id ?_⟩
      rintro ⟨a, ha, leg, hleg, hs⟩
      exact hb a ha leg hleg _ hs
  refine ⟨?_, ?_, fun e he => (hmem e he).1⟩
  · exact hsorted.imp (fun h => by simpa [logLE] using h)
  · refine hsorted.imp_of_mem ?_
    intro x y hx hy hxy hts
    have hle : x.timestamp ≤ y.timestamp := by simpa [logLE] using hxy
    rcases (hmem y hy).2 with h | h
    · exact h
    · exfalso
      rw [hts] at hle
      linarith

/-- An agent with a rationale-bearing leg for the C9 witness. -/
def agentW9 : RawAgent :=
  { id := some "A9", mode := some "walk",
    legs := some [{ start_time := JSVal.num 100, reasoning := RVal.str "go" }] }

theorem reasoning_log_sorted_witness :
    (buildReasoningLogsFromScenario (some [agentW9])).Pairwise
        (fun x y => x.timestamp ≤ y.timestamp) ∧
      (buildReasoningLogsFromScenario (some [agentW9])).Pairwise
        (fun x y => x.timestamp = maxSafeInteger → y.timestamp = maxSafeInteger) :=
  ⟨(reasoning_log_sorted [agentW9] (by decide)).1,
   (reasoning_log_sorted [agentW9] (by decide)).2.1⟩

/-! ## C1: the as-of emission query -/

/-- Scan form of the as-of query, used to relate `emissionAsOf` to the event
prefix sums: `prev` carries the cumulative value of the last point at or
before `q` seen so far. -/
def asOfGo (q : ℚ) : ℚ → List CumPoint → ℚ
  | prev, [] => prev
  | prev, p :: r => if jsGtNum p.t q then prev else asOfGo q p.emission_g_cum r

lemma findIdx?_some_lt_length {α : Type} {p : α → Bool} :
    ∀ (l : List α) (i : ℕ), l.findIdx? p = some i → i < l.length := by
  intro l
  induction l with
  | nil => intro i h; simp at h
  | cons x xs ih =>
    intro i h
    rw [List.findIdx?_cons, List.findIdx?_succ] at h
    by_cases hp : p x
    · rw [if_pos hp] at h
      cases h
      simp
    · rw [if_neg hp] at h
      simp only [Option.map_eq_some'] at h
      obtain ⟨j, hj, rfl⟩ := h
      have := ih j hj
      simp only [List.length_cons]
      omega

lemma asOfGo_eq_findIdx (q : ℚ) :
    ∀ (l : List CumPoint) (prev : ℚ),
      asOfGo q prev l =
        match l.findIdx? (fun p => jsGtNum p.t q) with
        | none => (l.getLast?.map CumPoint.emission_g_cum).getD prev
        | some 0 => prev
        | some (i + 1) => (l[i]?.map CumPoint.emission_g_cum).getD prev
  | [], prev => by simp [asOfGo]
  | p :: r, prev => by
    rw [List.findIdx?_cons, List.findIdx?_succ]
    by_cases hp : jsGtNum p.t q
    · simp [asOfGo, hp]
    · rw [if_neg hp]
      have hgo : asOfGo q prev (p :: r) = asOfGo q p.emission_g_cum r := by
        simp [asOfGo, hp]
      rw [hgo, asOfGo_eq_findIdx q r p.emission_g_cum]
      cases hfi : r.findIdx? (fun x => jsGtNum x.t q) with
      | none =>
        simp only [hfi]
        cases r with
        | nil => simp
        | cons y r' =>
          cases hx : (y :: r').getLast? with
          | none => simp at hx
          | some x => simp [hx]
      | some j =>
        cases j with
        | zero => simp [hfi]
        | succ i =>
          have hlt : i + 1 < r.length := findIdx?_some_lt_length r (i + 1) hfi
          obtain ⟨x, hx⟩ : ∃ x, r[i]? = some x :=
            ⟨r[i], (List.getElem?_eq_some_iff).mpr ⟨by omega, rfl⟩⟩
          simp [hfi, hx]

lemma emissionAsOf_eq_asOfGo (cum : List CumPoint) (q : ℚ) :
    emissionAsOf cum q = asOfGo q 0 cum := by
  rw [asOfGo_eq_findIdx]
  cases cum with
  | nil => rfl
  | cons p r =>
    simp only [emissionAsOf, List.isEmpty_cons, Bool.false_eq_true, if_false]
    cases hfi : (p :: r).findIdx? (fun x => jsGtNum x.t q) with
    | none =>
      simp only [hfi, List.getLastD_eq_getLast?]
      cases h : (p :: r).getLast? with
      | none => simp at h
      | some x => simp [h]
    | some i =>
      cases i with
      | zero => rfl
      | succ k => rfl

lemma asOfGo_prefixCum (q : ℚ) :
    ∀ (l : List EmEvent) (acc prev : ℚ),
      l.Pairwise (fun a b => sortKey a.t ≤ sortKey b.t) →
      (∀ e ∈ l, ∃ x, e.t = JSVal.num x) →
      asOfGo q prev (prefixCum acc l) =
        match l with
        | [] => prev
        | e :: _ =>
          if jsGtNum e.t q then prev
          else acc + ((l.filter (fun e => ! jsGtNum e.t q)).map EmEvent.emission_g).sum
  | [], _, _, _, _ => rfl
  | e :: r, acc, prev, hpw, hnum => by
    simp only [prefixCum]
    by_cases hge : jsGtNum e.t q
    · simp [asOfGo, hge]
    · have hgo : asOfGo q prev (⟨e.t, acc + e.emission_g⟩ :: prefixCum (acc + e.emission_g) r) =
          asOfGo q (acc + e.emission_g) (prefixCum (acc + e.emission_g) r) := by
        simp [asOfGo, hge]
      rw [hgo, asOfGo_prefixCum q r (acc + e.emission_g) (acc + e.emission_g)
        (List.Pairwise.sublist (List.sublist_cons_self e r) hpw)
        (fun x hx => hnum x (List.mem_cons_of_mem _ hx))]
      cases r with
      | nil => simp [hge]
      | cons f r' =>
        by_cases hgf : jsGtNum f.t q
        · have hfilter : (f :: r').filter (fun e => ! jsGtNum e.t q) = [] := by
            rw [List.filter_eq_nil_iff]
            intro x hx
            obtain ⟨xf, hxf⟩ := hnum f (List.mem_cons_of_mem _ (List.mem_cons_self f r'))
            obtain ⟨xx, hxx⟩ := hnum x (List.mem_cons_of_mem _ hx)
            have hrel : sortKey f.t ≤ sortKey x.t := by
              rcases List.mem_cons.mp hx with h | h
              · rw [h]
              · exact (List.pairwise_cons.mp (List.pairwise_cons.mp hpw).2).1 x h
            rw [hxf, hxx] at hrel
            simp only [sortKey, JSVal.toNumber, Option.getD_some] at hrel
            rw [hxf] at hgf
            simp only [jsGtNum, JSVal.toNumber, decide_eq_true_eq] at hgf
            rw [hxx]
            have hgtx : jsGtNum (JSVal.num xx) q = true := by
              simp only [jsGtNum, JSVal.toNumber, decide_eq_true_eq]
              linarith
            simp [hgtx]
          rw [hfilter]
          simp [hge, hgf, List.filter_cons, hfilter]
        · simp only [hgf, Bool.false_eq_true, if_false, hge, List.filter_cons]
          simp only [hge, hgf, Bool.not_false, Bool.not_true, Bool.false_eq_true, if_false,
            if_true, List.map_cons, List.sum_cons]
          ring

lemma findIdx?_eq_of_getElem {α : Type} {pr : α → Bool} :
    ∀ (l : List α) (i : ℕ),
      (∀ j x, j < i → l[j]? = some x → pr x = false) →
      ∀ x, l[i]? = some x → pr x = true → l.findIdx? pr = some i
  | [], i, _, x, hx, _ => by simp at hx
  | y :: ys, 0, _, x, hx, hpx => by
    simp only [List.getElem?_cons_zero, Option.some.injEq] at hx
    subst hx
    rw [List.findIdx?_cons, if_pos hpx]
  | y :: ys, i + 1, hbefore, x, hx, hpx => by
    have hy : pr y = false := hbefore 0 y (by omega) (by simp)
    rw [List.findIdx?_cons, if_neg (by simp [hy]), List.findIdx?_succ]
    simp only [List.getElem?_cons_succ] at hx
    rw [findIdx?_eq_of_getElem ys i
      (fun j z hj hz => hbefore (j + 1) z (by omega) (by simpa using hz)) x hx hpx]
    rfl

/-- C1: the as-of query contract and boundary semantics.
For any curve: (a) when no curve point has time `> t` and the curve is
non-empty, the query returns the last point's cumulative value; (b) when the
first point with time `> t` is the curve's first element, it returns `0`;
(c) when the first point with time `> t` sits at index `i + 1`, it returns the
cumulative value of the point at index `i` immediately before it.  (d) For the
curve built by the aggregation from completion events with numeric times, the
query returns exactly the sum of the masses of events completing at time
`≤ t` — so an event completing exactly at `t` is included, and one completing
strictly after `t` is not. -/
theorem emissionAsOf_query_contract (q : ℚ) :
    (∀ curve : List CumPoint, curve ≠ [] →
        (∀ p ∈ curve, jsGtNum p.t q = false) →
        emissionAsOf curve q = (curve.getLastD ⟨.undef, 0⟩).emission_g_cum) ∧
      (∀ (p0 : CumPoint) (r : List CumPoint), jsGtNum p0.t q = true →
        emissionAsOf (p0 :: r) q = 0) ∧
      (∀ (curve : List CumPoint) (i : ℕ) (pi pj : CumPoint),
        curve[i]? = some pi → curve[i + 1]? = some pj → jsGtNum pj.t q = true →
        (∀ j p, j ≤ i → curve[j]? = some p → jsGtNum p.t q = false) →
        emissionAsOf curve q = pi.emission_g_cum) ∧
      (∀ tg : List (ℚ × ℚ),
        emissionAsOf (buildCumulative (tg.map (fun p => ⟨JSVal.num p.1, p.2⟩))) q =
          ((tg.filter (fun p => decide (p.1 ≤ q))).map Prod.snd).sum) := by
  have hnone : ∀ (curve : List CumPoint), (∀ p ∈ curve, jsGtNum p.t q = false) →
      curve.findIdx? (fun p => jsGtNum p.t q) = none := by
    intro curve h
    rw [List.findIdx?_eq_none_iff]
    exact h
  refine ⟨?_, ?_, ?_, ?_⟩
  · intro curve hne h
    cases curve with
    | nil => exact absurd rfl hne
    | cons p r =>
      simp only [emissionAsOf, List.isEmpty_cons, Bool.false_eq_true, if_false,
        hnone _ h]
  · intro p0 r h
    simp only [emissionAsOf, List.isEmpty_cons, Bool.false_eq_true, if_false,
      List.findIdx?_cons, h, if_true]
  · intro curve i pi pj hpi hpj hgt hbefore
    have hfi : curve.findIdx? (fun p => jsGtNum p.t q) = some (i + 1) :=
      findIdx?_eq_of_getElem curve (i + 1)
        (fun j x hj hx => hbefore j x (by omega) hx) pj hpj hgt
    cases curve with
    | nil => simp at hpj
    | cons x xs =>
      simp only [emissionAsOf, List.isEmpty_cons, Bool.false_eq_true, if_false, hfi, hpi]
      rfl
  · intro tg
    rw [emissionAsOf_eq_asOfGo, buildCumulative]
    have hpw : (List.mergeSort (tg.map (fun p => ⟨JSVal.num p.1, p.2⟩)) evLE).Pairwise
        (fun a b => sortKey a.t ≤ sortKey b.t) := by
      have := @List.sorted_mergeSort EmEvent evLE
        (fun a b c hab hbc => by
          simp only [evLE, decide_eq_true_eq] at hab hbc ⊢
          exact le_trans hab hbc)
        (fun a b => by
          simp only [evLE, Bool.or_eq_true, decide_eq_true_eq]
          exact le_total _ _)
        (tg.map (fun p => ⟨JSVal.num p.1, p.2⟩))
      exact this.imp (fun h => by simpa [evLE] using h)
    have hnum : ∀ e ∈ List.mergeSort (tg.map (fun p => (⟨JSVal.num p.1, p.2⟩ : EmEvent)))
        evLE, ∃ x, e.t = JSVal.num x := by
      intro e he
      rw [List.mem_mergeSort, List.mem_map] at he
      obtain ⟨pr, _, rfl⟩ := he
      exact ⟨pr.1, rfl⟩
    rw [asOfGo_prefixCum q _ 0 0 hpw hnum]
    have hperm : List.Perm (List.mergeSort (tg.map (fun p => (⟨JSVal.num p.1, p.2⟩ : EmEvent)))
        evLE) (tg.map (fun p => ⟨JSVal.num p.1, p.2⟩)) := List.mergeSort_perm _ _
    have hfilter_sum :
        (((List.mergeSort (tg.map (fun p => (⟨JSVal.num p.1, p.2⟩ : EmEvent))) evLE).filter
            (fun e => ! jsGtNum e.t q)).map EmEvent.emission_g).sum =
          ((tg.filter (fun p => decide (p.1 ≤ q))).map Prod.snd).sum := by
      have h1 := ((hperm.filter (fun e => ! jsGtNum e.t q)).map EmEvent.emission_g).sum_eq
      rw [h1, List.filter_map, List.map_map]
      have h2 : ((fun e : EmEvent => ! jsGtNum e.t q) ∘ fun p : ℚ × ℚ =>
          (⟨JSVal.num p.1, p.2⟩ : EmEvent)) = fun p : ℚ × ℚ => decide (p.1 ≤ q) := by
        funext p
        simp only [Function.comp_apply, jsGtNum, JSVal.toNumber]
        by_cases h : p.1 ≤ q
        · simp [h, not_lt.mpr h]
        · simp [h, not_le.mp h]
      rw [h2]
      rfl
    cases hms : List.mergeSort (tg.map (fun p => (⟨JSVal.num p.1, p.2⟩ : EmEvent))) evLE with
    | nil =>
      have : tg.map (fun p => (⟨JSVal.num p.1, p.2⟩ : EmEvent)) = [] := by
        have := hperm
        rw [hms] at this
        exact (List.Perm.nil_eq this).symm
      have htg : tg = [] := List.map_eq_nil_iff.mp this
      subst htg
      simp
    | cons e rest =>
      by_cases hge : jsGtNum e.t q
      · simp only [hge, if_true]
        have hall : ∀ x ∈ tg, ¬ (x.1 ≤ q) := by
          intro x hx
          have hev : (⟨JSVal.num x.1, x.2⟩ : EmEvent) ∈
              List.mergeSort (tg.map (fun p => (⟨JSVal.num p.1, p.2⟩ : EmEvent))) evLE := by
            rw [List.mem_mergeSort]
            exact List.mem_map_of_mem _ hx
          rw [hms] at hev
          obtain ⟨xe, hxe⟩ : ∃ xe, e.t = JSVal.num xe := by
            apply hnum
            rw [hms]
            exact List.mem_cons_self e rest
          have hq : q < xe := by
            rw [hxe] at hge
            simpa [jsGtNum, JSVal.toNumber] using hge
          have hkey : sortKey e.t ≤ x.1 := by
            rcases List.mem_cons.mp hev with h | h
            · rw [← h]
              simp [sortKey, JSVal.toNumber]
            · have hp : (List.mergeSort (tg.map (fun p => (⟨JSVal.num p.1, p.2⟩ : EmEvent)))
                  evLE).Pairwise (fun a b => sortKey a.t ≤ sortKey b.t) := hpw
              rw [hms] at hp
              have := (List.pairwise_cons.mp hp).1 _ h
              simpa [sortKey, JSVal.toNumber] using this
          rw [hxe] at hkey
          simp only [sortKey, JSVal.toNumber, Option.getD_some] at hkey
          linarith
        have : tg.filter (fun p => decide (p.1 ≤ q)) = [] := by
          rw [List.filter_eq_nil_iff]
          intro x hx
          simpa using hall x hx
        rw [this]
        simp
      · simp only [hge, Bool.false_eq_true, if_false, zero_add]
        rw [hms] at hfilter_sum
        exact hfilter_sum

theorem emissionAsOf_query_contract_witness :
    emissionAsOf [⟨JSVal.num 5, 3⟩] 9 = 3 ∧
      emissionAsOf [⟨JSVal.num 5, 3⟩] 2 = 0 ∧
      emissionAsOf [⟨JSVal.num 5, 3⟩, ⟨JSVal.num 8, 10⟩] 6 = 3 := by
  refine ⟨?_, ?_, ?_⟩
  · have h := (emissionAsOf_query_contract 9).1 [⟨JSVal.num 5, 3⟩] (by decide) (by decide)
    simpa using h
  · exact (emissionAsOf_query_contract 2).2.1 ⟨JSVal.num 5, 3⟩ [] (by decide)
  · have h := (emissionAsOf_query_contract 6).2.2.1 [⟨JSVal.num 5, 3⟩, ⟨JSVal.num 8, 10⟩]
      0 ⟨JSVal.num 5, 3⟩ ⟨JSVal.num 8, 10⟩ rfl rfl (by decide)
      (fun j p hj hp => by
        interval_cases j
        · cases hp; decide)
    simpa using h

end CarbonMap
